import Mathlib

/-!
Shallow embedding of the csv-chef recipe engine, translated from
`src/recipe/recipe.go`.

The repository's parser and its operation library (`Uppercase`, `Add`,
`FormatDate`, ...) live in source files that are not under `src/`; the
evaluator below is therefore parametric over the operation library
(`OpLib`), and the few parser-produced shapes that are needed are modelled
from the specification, each marked `Modelled from the spec:` in its doc
comment.  Everything else is a direct translation of `recipe.go`:

* Go maps are modelled as association lists (for the fields of
  `Transformation` and `LineContext`, where insertion order matters to the
  builder functions) or as `Int → Option String` functions (for the per-row
  output map built by `Execute`).
* Go's `error` results become `Except String` / explicit error
  constructors; an out-of-range slice index (a Go runtime panic, possible
  in `processRecipe` for `value`/`join`/`uppercase`/`lowercase` with an
  empty argument list) is the `crashed` outcome.
* `strconv.Atoi` with its discarded error becomes `goAtoi` (0 on syntax
  error, clamped on overflow), and `strings.ToLower` becomes `goToLower`
  (ASCII; recipe operation names are ASCII).
-/

deriving instance DecidableEq for Except

namespace CsvChef

/-- Tags of the Go `DataType` used by `recipe.go`: `Column`, `Variable`,
`Header`, `Literal`, `Placeholder` (the constants themselves are declared
in a source file outside `src/`; only their identities matter here). -/
inductive DataType where
  | Column
  | Variable
  | Header
  | Literal
  | Placeholder
  deriving DecidableEq, Repr

/-- Modelled from the spec: the generated `DataType.String()` method lives
outside `src/`; `recipe.go` reaches it only in the unreachable default arm
of `Argument.GetValue`.  The names follow the spec's §3 data model. -/
def dataTypeString : DataType → String
  | .Column => "Column"
  | .Variable => "Variable"
  | .Header => "Header"
  | .Literal => "Literal"
  | .Placeholder => "Placeholder"

/-- The `Argument` struct of recipe.go (lines 37-40). -/
structure Argument where
  type : DataType
  value : String
  deriving DecidableEq, Repr

/-- The `Operation` struct of recipe.go (lines 69-72). -/
structure Operation where
  name : String
  arguments : List Argument
  deriving DecidableEq, Repr

/-- The `Output` struct of recipe.go (lines 12-15). -/
structure Output where
  type : DataType
  value : String
  deriving DecidableEq, Repr

/-- The `Recipe` struct of recipe.go (lines 74-78). -/
structure Recipe where
  output : Output
  pipe : List Operation
  comment : String
  deriving DecidableEq, Repr

/-- The `Transformation` struct of recipe.go (lines 80-85); the three Go
maps become association lists keyed like the maps. -/
structure Transformation where
  vars : List (String × Recipe)
  cols : List (Int × Recipe)
  headers : List (Int × Recipe)
  variableOrder : List String
  deriving DecidableEq, Repr

/-- The `TransformationResult` struct of recipe.go (lines 87-90); both
fields are Go `int`s and `Lines` can be negative. -/
structure TransformationResult where
  headerLines : Int
  lines : Int
  deriving DecidableEq, Repr

/-- The `LineContext` struct of recipe.go (lines 673-677). -/
structure LineContext where
  vars : List (String × String)
  cols : List (Int × String)
  lineNo : Nat
  deriving DecidableEq, Repr

/-- Go map read `m[k]` (the `ok` form) on an association list. -/
def lookupA {α β : Type} [DecidableEq α] : List (α × β) → α → Option β
  | [], _ => none
  | (k, v) :: rest, key => if k = key then some v else lookupA rest key

/-- Go map write `m[k] = v` on an association list: overwrite the existing
entry or append a new one (preserving first-insertion order, as the
builder functions rely on for nothing but the reviewer's sanity). -/
def updateA {α β : Type} [DecidableEq α] : List (α × β) → α → β → List (α × β)
  | [], key, val => [(key, val)]
  | (k, v) :: rest, key, val =>
      if k = key then (key, val) :: rest else (k, v) :: updateA rest key val

/-- Numeric value of a list of decimal digit characters. -/
def digitsVal (l : List Char) : Nat :=
  l.foldl (fun a c => a * 10 + (c.toNat - Char.toNat '0')) 0

def maxInt64 : Int := 9223372036854775807

def minInt64 : Int := -9223372036854775808

/-- Model of Go `strconv.Atoi` as used by recipe.go, where the error
return is always discarded: `Atoi` yields `0` on a syntax error, and the
clamped `MaxInt64`/`MinInt64` value on range overflow. -/
def goAtoi (s : String) : Int :=
  let cs := s.toList
  let sgn : Int := match cs with | '-' :: _ => -1 | _ => 1
  let ds := match cs with | '+' :: rest => rest | '-' :: rest => rest | _ => cs
  if ds.isEmpty then 0
  else if ds.all Char.isDigit then
    let v : Int := sgn * (digitsVal ds : Int)
    if maxInt64 < v then maxInt64 else if v < minInt64 then minInt64 else v
  else 0

/-- Model of Go `strings.ToLower`, restricted to ASCII (recipe operation
names are ASCII). -/
def goToLower (s : String) : String :=
  String.mk (s.data.map (fun c => if c.isUpper then Char.ofNat (c.toNat + 32) else c))

/-- The `Argument.GetValue` method of recipe.go (lines 42-67). -/
def Argument.GetValue (a : Argument) (context : LineContext) (placeholder : String) :
    Except String String :=
  match a.type with
  | .Column =>
      let colNum := goAtoi a.value
      match lookupA context.cols colNum with
      | some colValue => .ok colValue
      | none =>
          .error ("column " ++ toString colNum ++
            " referenced, but it does not exist in the input")
  | .Variable =>
      match lookupA context.vars a.value with
      | some varValue => .ok varValue
      | none =>
          .error ("variable \x27" ++ a.value ++ "\x27 referenced, but it is not defined")
  | .Literal => .ok a.value
  | .Placeholder => .ok placeholder
  | .Header =>
      .error ("argument GetValue not implemented for type " ++ dataTypeString a.type)

/-- The `getPlaceholderArg` helper of recipe.go (lines 583-588). -/
def getPlaceholderArg : Argument := ⟨.Placeholder, "?"⟩

/-- The `processArgs` helper of recipe.go (lines 565-581): right-pad the
argument list with `Placeholder` arguments up to `numArgs`, then evaluate
the first `numArgs` arguments left to right, stopping at the first
failure. -/
def processArgs (numArgs : Nat) (arguments : List Argument) (context : LineContext)
    (placeholder : String) : Except String (List String) :=
  let padded := arguments ++ List.replicate (numArgs - arguments.length) getPlaceholderArg
  (padded.take numArgs).mapM (fun a => a.GetValue context placeholder)

/-- The `Replace`/`Join` mode constants threaded through `processRecipe`
(declared outside `src/`; `processRecipe` only ever assigns these two, so
the `default` arm of its combine switch is unreachable and omitted). -/
inductive Mode where
  | Replace
  | Join
  deriving DecidableEq, Repr

/-- Outcome of one arm of `processRecipe`'s per-operation switch: a
computed `value` together with the mode the combine step will see, a
deferred join (the `continue` statement, which skips the combine step), an
error return, or a Go runtime panic from an out-of-range index. -/
inductive StepOut where
  | value (v : String) (mode : Mode)
  | skipCombine (mode : Mode)
  | err (msg : String)
  | crashed
  deriving DecidableEq, Repr

/-- Result of running evaluator code that can fail with an error string or
crash with a Go runtime panic. -/
inductive Res (α : Type) where
  | ok (a : α)
  | err (msg : String)
  | crashed
  deriving DecidableEq, Repr

/-- Modelled from the spec: the operation library (string, numeric and
date functions) lives in repository source files that are not under
`src/`; `recipe.go` only calls into it.  The evaluator is parametric over
the library, and every theorem below holds for every library.  Functions
whose Go error result is discarded by `processRecipe` are modelled by
their string result alone; `Today`/`NowTime` are applied to the
process-wide `Now` clock in the source and modelled as the string each
returns. -/
structure OpLib where
  Uppercase : String → String
  Lowercase : String → String
  Add : String → String → Except String String
  Subtract : String → String → Except String String
  Multiply : String → String → Except String String
  Divide : String → String → Except String String
  Change : String → String → String → String
  ChangeI : String → String → String → String
  IfEmpty : String → String → String → String
  NumberFormat : String → String → Except String String
  RemoveDigits : String → String
  OnlyDigits : String → String
  Modulus : String → String → Except String String
  Trim : String → String
  FirstChars : String → String → Except String String
  LastChars : String → String → Except String String
  Repeat : String → String → Except String String
  ReplaceString : String → String → String → String
  Today : String
  NowTime : String
  FormatDate : String → String → Except String String
  FormatDateF : String → String → Except String String
  ReadDate : String → String → Except String String
  ReadDateF : String → String → Except String String
  SmartDate : String → Except String String
  IsPast : String → String → String → Except String String
  IsFuture : String → String → String → Except String String

/-- Common shape of the switch arms of `processRecipe` that route their
arguments through `processArgs` and whose library function cannot fail
(recipe.go, e.g. the `change` arm at lines 372-378). -/
def opArgsPure (pre opName : String) (numArgs : Nat) (f : List String → String)
    (o : Operation) (context : LineContext) (placeholder : String) (mode : Mode) :
    StepOut :=
  match processArgs numArgs o.arguments context placeholder with
  | .error e => .err (pre ++ " " ++ opName ++ "(): error evaluating arg: " ++ e)
  | .ok args => .value (f args) mode

/-- Common shape of the switch arms of `processRecipe` that route their
arguments through `processArgs` and whose library function can fail
(recipe.go, e.g. the `add` arm at lines 332-341). -/
def opArgsErr (pre opName : String) (numArgs : Nat)
    (f : List String → Except String String) (o : Operation) (context : LineContext)
    (placeholder : String) (mode : Mode) : StepOut :=
  match processArgs numArgs o.arguments context placeholder with
  | .error e => .err (pre ++ " " ++ opName ++ "(): error evaluating arg: " ++ e)
  | .ok args =>
      match f args with
      | .error e => .err (pre ++ " " ++ opName ++ "(): " ++ e)
      | .ok v => .value v mode

/-- The per-operation switch of `processRecipe` (recipe.go lines 298-550):
compute this operation's `value`, or defer (`join` with a `Placeholder`
argument), fail, or crash on an out-of-range `o.Arguments[0]`.  The `mode`
parameter is the running mode: the `join` arm replaces it by `Join`, every
other arm passes it through unchanged to the combine step. -/
def evalOpValue (lib : OpLib) (pre : String) (context : LineContext)
    (placeholder : String) (mode : Mode) (o : Operation) : StepOut :=
  let opName := goToLower o.name
  if opName = "value" then
    match o.arguments with
    | [] => .crashed
    | firstArg :: _ =>
        match firstArg.GetValue context placeholder with
        | .error e => .err (pre ++ " " ++ e)
        | .ok argValue => .value argValue mode
  else if opName = "join" then
    match o.arguments with
    | [] => .crashed
    | firstArg :: _ =>
        match firstArg.GetValue context placeholder with
        | .error e => .err (pre ++ " " ++ e)
        | .ok argValue =>
            if firstArg.type = .Placeholder then .skipCombine .Join
            else .value argValue .Join
  else if opName = "uppercase" then
    match o.arguments with
    | [] => .crashed
    | firstArg :: _ =>
        match firstArg.GetValue context placeholder with
        | .error e => .err (pre ++ " " ++ opName ++ "(): error evaluating arg: " ++ e)
        | .ok v => .value (lib.Uppercase v) mode
  else if opName = "lowercase" then
    match o.arguments with
    | [] => .crashed
    | firstArg :: _ =>
        match firstArg.GetValue context placeholder with
        | .error e => .err (pre ++ " " ++ opName ++ "(): error evaluating arg: " ++ e)
        | .ok v => .value (lib.Lowercase v) mode
  else if opName = "add" then
    opArgsErr pre opName 2 (fun a => lib.Add (a.getD 0 "") (a.getD 1 ""))
      o context placeholder mode
  else if opName = "subtract" then
    opArgsErr pre opName 2 (fun a => lib.Subtract (a.getD 0 "") (a.getD 1 ""))
      o context placeholder mode
  else if opName = "multiply" then
    opArgsErr pre opName 2 (fun a => lib.Multiply (a.getD 0 "") (a.getD 1 ""))
      o context placeholder mode
  else if opName = "divide" then
    opArgsErr pre opName 2 (fun a => lib.Divide (a.getD 0 "") (a.getD 1 ""))
      o context placeholder mode
  else if opName = "change" then
    opArgsPure pre opName 3 (fun a => lib.Change (a.getD 0 "") (a.getD 1 "") (a.getD 2 ""))
      o context placeholder mode
  else if opName = "changei" then
    opArgsPure pre opName 3 (fun a => lib.ChangeI (a.getD 0 "") (a.getD 1 "") (a.getD 2 ""))
      o context placeholder mode
  else if opName = "ifempty" ∨ opName = "isempty" then
    opArgsPure pre opName 3 (fun a => lib.IfEmpty (a.getD 0 "") (a.getD 1 "") (a.getD 2 ""))
      o context placeholder mode
  else if opName = "numberformat" then
    opArgsErr pre opName 3 (fun a => lib.NumberFormat (a.getD 0 "") (a.getD 1 ""))
      o context placeholder mode
  else if opName = "lineno" then
    .value (toString context.lineNo) mode
  else if opName = "removedigits" then
    opArgsPure pre opName 1 (fun a => lib.RemoveDigits (a.getD 0 ""))
      o context placeholder mode
  else if opName = "onlydigits" then
    opArgsPure pre opName 1 (fun a => lib.OnlyDigits (a.getD 0 ""))
      o context placeholder mode
  else if opName = "mod" then
    opArgsErr pre opName 2 (fun a => lib.Modulus (a.getD 0 "") (a.getD 1 ""))
      o context placeholder mode
  else if opName = "trim" then
    opArgsPure pre opName 1 (fun a => lib.Trim (a.getD 0 ""))
      o context placeholder mode
  else if opName = "firstchars" then
    opArgsErr pre opName 2 (fun a => lib.FirstChars (a.getD 0 "") (a.getD 1 ""))
      o context placeholder mode
  else if opName = "lastchars" then
    opArgsErr pre opName 2 (fun a => lib.LastChars (a.getD 0 "") (a.getD 1 ""))
      o context placeholder mode
  else if opName = "repeat" then
    opArgsErr pre opName 2 (fun a => lib.Repeat (a.getD 0 "") (a.getD 1 ""))
      o context placeholder mode
  else if opName = "replace" then
    opArgsPure pre opName 3
      (fun a => lib.ReplaceString (a.getD 0 "") (a.getD 1 "") (a.getD 2 ""))
      o context placeholder mode
  else if opName = "today" then
    .value lib.Today mode
  else if opName = "now" then
    .value lib.NowTime mode
  else if opName = "formatdate" then
    opArgsErr pre opName 2 (fun a => lib.FormatDate (a.getD 0 "") (a.getD 1 ""))
      o context placeholder mode
  else if opName = "formatdatef" then
    opArgsErr pre opName 2 (fun a => lib.FormatDateF (a.getD 0 "") (a.getD 1 ""))
      o context placeholder mode
  else if opName = "readdate" then
    opArgsErr pre opName 2 (fun a => lib.ReadDate (a.getD 0 "") (a.getD 1 ""))
      o context placeholder mode
  else if opName = "readdatef" then
    opArgsErr pre opName 2 (fun a => lib.ReadDateF (a.getD 0 "") (a.getD 1 ""))
      o context placeholder mode
  else if opName = "smartdate" then
    opArgsErr pre opName 1 (fun a => lib.SmartDate (a.getD 0 ""))
      o context placeholder mode
  else if opName = "ispast" then
    opArgsErr pre opName 3 (fun a => lib.IsPast (a.getD 0 "") (a.getD 1 "") (a.getD 2 ""))
      o context placeholder mode
  else if opName = "isfuture" then
    opArgsErr pre opName 3 (fun a => lib.IsFuture (a.getD 0 "") (a.getD 1 "") (a.getD 2 ""))
      o context placeholder mode
  else
    .err (pre ++ " error: processing variable, unimplemented operation " ++ o.name)

/-- The operation loop of `processRecipe` (recipe.go lines 298-561):
thread `placeholder` and `mode` through the pipe, combining each computed
value according to the mode — `Replace` overwrites the placeholder, `Join`
appends to it and resets the mode to `Replace`. -/
def runPipe (lib : OpLib) (pre : String) (context : LineContext) :
    List Operation → String → Mode → Res String
  | [], placeholder, _ => .ok placeholder
  | o :: rest, placeholder, mode =>
      match evalOpValue lib pre context placeholder mode o with
      | .err e => .err e
      | .crashed => .crashed
      | .skipCombine m => runPipe lib pre context rest placeholder m
      | .value v m =>
          match m with
          | .Replace => runPipe lib pre context rest v .Replace
          | .Join => runPipe lib pre context rest (placeholder ++ v) .Replace

/-- The `processRecipe` method of recipe.go (lines 291-563); `r` is the
recipe (called `variable` in the source, a Lean keyword). -/
def processRecipe (lib : OpLib) (recipeType : String) (r : Recipe)
    (context : LineContext) : Res String :=
  let pre := "line " ++ toString context.lineNo ++ " / " ++ recipeType ++ " " ++
    r.output.value ++ ":"
  runPipe lib pre context r.pipe "" .Replace

/-- The `ValidateRecipe` method of recipe.go (lines 648-671).  Go iterates
`t.Headers` in unspecified order; whether an error is produced does not
depend on the order, and the model iterates in list order. -/
def ValidateRecipe (t : Transformation) : Option String :=
  let numColumns := t.cols.length
  if numColumns = 0 then some "no column recipes provided"
  else
    match (List.range numColumns).find?
        (fun (c : Nat) => (lookupA t.cols ((c : Int) + 1)).isNone) with
    | some c => some ("missing column definition for column #" ++ toString ((c : Int) + 1))
    | none =>
        match t.headers.find? (fun p => (lookupA t.cols p.1).isNone) with
        | some p =>
            some ("found header for column " ++ toString p.1 ++
              ", but no recipe for column " ++ toString p.1)
        | none => none

/-- Lines 199-202 of `Execute`: load the context with all the columns,
`context.Columns[i+1] = row[i]`, starting from index `b`. -/
def colsFromRowAux : Int → List String → List (Int × String)
  | _, [] => []
  | b, v :: rest => (b + 1, v) :: colsFromRowAux (b + 1) rest

/-- The column bindings of a fresh `LineContext` for one input row. -/
def colsFromRow (row : List String) : List (Int × String) :=
  colsFromRowAux 0 row

/-- Go map write `output[k] = v` for the per-row output map of `Execute`. -/
def updateMap (m : Int → Option String) (k : Int) (v : String) : Int → Option String :=
  fun x => if x = k then some v else m x

/-- Lines 216-226 of `Execute`: seed the header-row output map with the
input row's fields where present and the synthetic `column I` string
otherwise, for positions `1..numColumns`. -/
def seedHeaderMap (numColumns : Nat) (row : List String) : Int → Option String :=
  (List.range numColumns).foldl
    (fun m (i : Nat) =>
      let idx : Int := (i : Int) + 1
      let value := if i < row.length then row.getD i "" else "column " ++ toString idx
      updateMap m idx value)
    (fun _ => none)

/-- The header-overwrite loop (recipe.go lines 228-235) and the column
loop (lines 246-253) share this shape: evaluate each recipe of the
key-to-recipe list and write the result into the output map, aborting at
the first failure.  Go iterates its map in unspecified order; each key
writes only its own slot, so the resulting map does not depend on the
order, and the model iterates in list order. -/
def applyRecipes (lib : OpLib) (recipeType : String) (context : LineContext) :
    List (Int × Recipe) → (Int → Option String) → Res (Int → Option String)
  | [], m => .ok m
  | (k, r) :: rest, m =>
      match processRecipe lib recipeType r context with
      | .ok placeholder => applyRecipes lib recipeType context rest (updateMap m k placeholder)
      | .err e => .err e
      | .crashed => .crashed

/-- The `outputCsvRow` method of recipe.go (lines 279-289): emit slots
`1..numColumns` in index order; a missing slot reads as the Go map zero
value `""`. -/
def outputCsvRow (numColumns : Nat) (output : Int → Option String) : List String :=
  (List.range numColumns).map (fun (i : Nat) => (output ((i : Int) + 1)).getD "")

/-- The Go zero value `Recipe{}` produced by reading a missing key from
`t.Variables` in `Execute`'s variable loop.  The zero `DataType` constant
is declared outside `src/` and is modelled as `Column`; only
`output.value` (the empty string) is ever consulted. -/
def zeroRecipe : Recipe := ⟨⟨.Column, ""⟩, [], ""⟩

/-- The variable loop of `Execute` (recipe.go lines 204-213): evaluate the
recipe of each name in `VariableOrder` in order and bind the result into
the context under the recipe's `Output.Value`. -/
def processVariables (lib : OpLib) (t : Transformation) :
    List String → LineContext → Res LineContext
  | [], context => .ok context
  | v :: rest, context =>
      let variableRecipe := (lookupA t.vars v).getD zeroRecipe
      match processRecipe lib "variable" variableRecipe context with
      | .ok placeholder =>
          processVariables lib t rest
            { context with
                vars := updateA context.vars variableRecipe.output.value placeholder }
      | .err e => .err e
      | .crashed => .crashed

/-- One iteration of `Execute`'s row loop (recipe.go lines 194-259): build
the fresh context, run the variable recipes, then exactly one of the
header branch (`processHeader` and this is row 1) or the column branch
(the source's two `if`s are mutually exclusive for `linesRead ≥ 1`). -/
def processRow (lib : OpLib) (t : Transformation) (processHeader : Bool)
    (linesRead : Nat) (row : List String) : Res (List String) :=
  let numColumns := t.cols.length
  let context0 : LineContext := ⟨[], colsFromRow row, linesRead⟩
  match processVariables lib t t.variableOrder context0 with
  | .err e => .err e
  | .crashed => .crashed
  | .ok context =>
      if processHeader ∧ linesRead = 1 then
        match applyRecipes lib "header" context t.headers (seedHeaderMap numColumns row) with
        | .ok output => .ok (outputCsvRow numColumns output)
        | .err e => .err e
        | .crashed => .crashed
      else
        match applyRecipes lib "column" context t.cols (fun _ => none) with
        | .ok output => .ok (outputCsvRow numColumns output)
        | .err e => .err e
        | .crashed => .crashed

/-- Result of `Execute`: the rows written to the csv writer so far,
together with the `TransformationResult`, an error, or a panic. -/
inductive ExecResult where
  | ok (written : List (List String)) (result : TransformationResult)
  | err (written : List (List String)) (msg : String)
  | crashed (written : List (List String))
  deriving DecidableEq, Repr

/-- Lines 266-276 of `Execute`: build the `TransformationResult` on normal
loop exit: `HeaderLines` is 1 iff header processing is on, and `Lines` is
`linesRead - headerLines` in Go `int` arithmetic. -/
def execFinish (processHeader : Bool) (linesRead : Nat)
    (written : List (List String)) : ExecResult :=
  let headerLines : Int := if processHeader then 1 else 0
  .ok written ⟨headerLines, (linesRead : Int) - headerLines⟩

/-- The row loop of `Execute` (recipe.go lines 181-264): stop before
reading when a positive `lineLimit` has been reached, stop at end of
input, otherwise read one row and process it. -/
def execLoop (lib : OpLib) (t : Transformation) (processHeader : Bool)
    (lineLimit : Int) : List (List String) → Nat → List (List String) → ExecResult
  | [], linesRead, written => execFinish processHeader linesRead written
  | row :: rest, linesRead, written =>
      if 0 < lineLimit ∧ lineLimit ≤ (linesRead : Int) then
        execFinish processHeader linesRead written
      else
        match processRow lib t processHeader (linesRead + 1) row with
        | .ok outRow =>
            execLoop lib t processHeader lineLimit rest (linesRead + 1) (written ++ [outRow])
        | .err e => .err written e
        | .crashed => .crashed written

/-- The `Execute` method of recipe.go (lines 171-277): validate the
transformation, then run the row loop from a fresh state.  The input is
the list of rows the csv reader yields; csv-codec read/write errors and
the periodic flush are outside the core (spec §1). -/
def Execute (lib : OpLib) (t : Transformation) (input : List (List String))
    (processHeader : Bool) (lineLimit : Int) : ExecResult :=
  match ValidateRecipe t with
  | some e => .err [] e
  | none => execLoop lib t processHeader lineLimit input 0 []

/-- The rows a run of `Execute` wrote, in every outcome. -/
def writtenOf : ExecResult → List (List String)
  | .ok w _ => w
  | .err w _ => w
  | .crashed w => w

/-- Modelled from the spec: `getOutputForVariable` is defined in a parser
source file outside `src/`; the target descriptor of a variable is its
`$`-name tagged `Variable` (spec §3, §4.2). -/
def getOutputForVariable (v : String) : Output := ⟨.Variable, v⟩

/-- Modelled from the spec: `getOutputForColumn`, outside `src/`; the
target descriptor of a column keeps the index's decimal text (spec §3). -/
def getOutputForColumn (c : String) : Output := ⟨.Column, c⟩

/-- Modelled from the spec: `getOutputForHeader`, outside `src/` (spec §3). -/
def getOutputForHeader (h : String) : Output := ⟨.Header, h⟩

/-- The `AddOutputToVariable` method of recipe.go (lines 140-147).  Note
that it does not touch `VariableOrder`. -/
def AddOutputToVariable (t : Transformation) (v : String) : Except String Transformation :=
  match lookupA t.vars v with
  | some _ => .error ("variable " ++ v ++ " already defined")
  | none =>
      .ok { t with vars := t.vars ++ [(v, { output := getOutputForVariable v, pipe := [], comment := "" })] }

/-- The `AddOutputToColumn` method of recipe.go (lines 149-158). -/
def AddOutputToColumn (t : Transformation) (c : String) : Except String Transformation :=
  let columnNum := goAtoi c
  match lookupA t.cols columnNum with
  | some _ => .error ("column " ++ toString columnNum ++ " already defined")
  | none =>
      .ok { t with cols := t.cols ++ [(columnNum, { output := getOutputForColumn c, pipe := [], comment := "" })] }

/-- The `AddOutputToHeader` method of recipe.go (lines 160-169). -/
def AddOutputToHeader (t : Transformation) (h : String) : Except String Transformation :=
  let headerNum := goAtoi h
  match lookupA t.headers headerNum with
  | some _ => .error ("header " ++ toString headerNum ++ " already defined")
  | none =>
      .ok { t with headers := t.headers ++ [(headerNum, { output := getOutputForHeader h, pipe := [], comment := "" })] }

/-- The `AddOperationToVariable` method of recipe.go (lines 590-603); the
inner `AddOutputToVariable` error is discarded in the source (it cannot
occur there, the output is only added when the variable is absent). -/
def AddOperationToVariable (t : Transformation) (v : String) (operation : Operation) :
    Transformation :=
  let t1 := match lookupA t.vars v with
    | some _ => t
    | none => match AddOutputToVariable t v with | .ok t2 => t2 | .error _ => t
  let recipe := (lookupA t1.vars v).getD zeroRecipe
  { t1 with vars := updateA t1.vars v { recipe with pipe := recipe.pipe ++ [operation] } }

/-- The `AddOperationToColumn` method of recipe.go (lines 605-619). -/
def AddOperationToColumn (t : Transformation) (c : String) (operation : Operation) :
    Transformation :=
  let columnNumber := goAtoi c
  let t1 := match lookupA t.cols columnNumber with
    | some _ => t
    | none => match AddOutputToColumn t c with | .ok t2 => t2 | .error _ => t
  let recipe := (lookupA t1.cols columnNumber).getD zeroRecipe
  { t1 with cols := updateA t1.cols columnNumber { recipe with pipe := recipe.pipe ++ [operation] } }

/-- The `AddOperationToHeader` method of recipe.go (lines 621-635). -/
def AddOperationToHeader (t : Transformation) (h : String) (operation : Operation) :
    Transformation :=
  let headerNumber := goAtoi h
  let t1 := match lookupA t.headers headerNumber with
    | some _ => t
    | none => match AddOutputToHeader t h with | .ok t2 => t2 | .error _ => t
  let recipe := (lookupA t1.headers headerNumber).getD zeroRecipe
  { t1 with headers := updateA t1.headers headerNumber { recipe with pipe := recipe.pipe ++ [operation] } }

/-- The `AddOperationByType` method of recipe.go (lines 637-646); types
other than the three targets fall through without effect. -/
def AddOperationByType (t : Transformation) (targetType : DataType) (target : String)
    (operation : Operation) : Transformation :=
  match targetType with
  | .Variable => AddOperationToVariable t target operation
  | .Column => AddOperationToColumn t target operation
  | .Header => AddOperationToHeader t target operation
  | _ => t

/-- The `NewTransformation` constructor of recipe.go (lines 679-685); the
`VariableOrder` slice is left at its zero value (nil). -/
def NewTransformation : Transformation := ⟨[], [], [], []⟩

/-- One call in a sequence that builds a `Transformation` through the
entry points named by claim C8.  `AddOutputToVariable`'s error case leaves
the transformation unchanged, as in the source. -/
inductive BuildCall where
  | outputToVariable (v : String)
  | operationToVariable (v : String) (op : Operation)
  | operationByType (targetType : DataType) (target : String) (op : Operation)
  deriving Repr

/-- Apply one building call to a transformation. -/
def applyBuildCall (t : Transformation) : BuildCall → Transformation
  | .outputToVariable v =>
      match AddOutputToVariable t v with | .ok t2 => t2 | .error _ => t
  | .operationToVariable v op => AddOperationToVariable t v op
  | .operationByType ty target op => AddOperationByType t ty target op

/-- The variable name a building call declares, if any. -/
def varTarget : BuildCall → Option String
  | .outputToVariable v => some v
  | .operationToVariable v _ => some v
  | .operationByType ty target _ => if ty = .Variable then some target else none

/-- Append a key to a key list if it is not already present (the key set
evolution of a Go map insert). -/
def addKey (ks : List String) (v : String) : List String :=
  if v ∈ ks then ks else ks ++ [v]

/-- The keys of the `Variables` map after a building sequence. -/
def declaredKeys (calls : List BuildCall) : List String :=
  calls.foldl
    (fun ks c => match varTarget c with | some v => addKey ks v | none => ks) []

/-- Modelled from the spec: the `join` operation that the parser (outside
`src/`) inserts for each `+` in a stage; its argument is the placeholder
token `?`, so the join defers (spec §4.3 catalog entry for `join` and the
§9 design note on placeholder semantics). -/
def joinPlaceholderOp : Operation := ⟨"join", [getPlaceholderArg]⟩

/-- Modelled from the spec: a bare atom term lowers to a `value` operation
carrying that atom (spec §4.2, pipeline lowering). -/
def valueOp (a : Argument) : Operation := ⟨"value", [a]⟩

/-- Modelled from the spec: the parser (outside `src/`) lowers the stage
`term1 + term2 + ... + termK` to the operation of `term1` followed, for
each later term, by a deferring `join` with a `Placeholder` argument and
then that term's own operation.  This is the reading of §4.2's lowering
fixed by the §9 design note — `join` with a `Placeholder` argument defers,
"this is what makes `1 + ?` inside a header recipe produce double
concatenation" — and by the repository's own test expecting
`!1 <- 1 + ?` on input `ab` to emit `abab` (`src/recipe/parse_execute_test.go`,
"double join flip flop headers" and "double header using placeholder
concatenation" cases, which this lowering reproduces). -/
def lowerStage (first : Operation) (rest : List Operation) : List Operation :=
  first :: rest.foldr (fun o acc => joinPlaceholderOp :: o :: acc) []

/-- Modelled from the spec: the pipe the parser produces for the
single-stage recipe `1 + ?` (claim C1). -/
def stage1PlusPlaceholder : List Operation :=
  lowerStage (valueOp ⟨.Column, "1"⟩) [valueOp getPlaceholderArg]

/-- Modelled from the spec: one arbitrary total operation library, used
only to instantiate theorems that hold for every library (no claim in
this development depends on the library's behavior, which lives outside
`src/`). -/
def anyOpLib : OpLib where
  Uppercase := id
  Lowercase := id
  Add := fun _ _ => .ok ""
  Subtract := fun _ _ => .ok ""
  Multiply := fun _ _ => .ok ""
  Divide := fun _ _ => .ok ""
  Change := fun a _ _ => a
  ChangeI := fun a _ _ => a
  IfEmpty := fun a _ _ => a
  NumberFormat := fun _ _ => .ok ""
  RemoveDigits := id
  OnlyDigits := id
  Modulus := fun _ _ => .ok ""
  Trim := id
  FirstChars := fun _ _ => .ok ""
  LastChars := fun _ _ => .ok ""
  Repeat := fun _ _ => .ok ""
  ReplaceString := fun a _ _ => a
  Today := ""
  NowTime := ""
  FormatDate := fun _ _ => .ok ""
  FormatDateF := fun _ _ => .ok ""
  ReadDate := fun _ _ => .ok ""
  ReadDateF := fun _ _ => .ok ""
  SmartDate := fun _ => .ok ""
  IsPast := fun _ _ _ => .ok ""
  IsFuture := fun _ _ _ => .ok ""

/-- A one-column transformation whose single column copies column 1, used
to instantiate theorems at a concrete valid recipe. -/
def execDemoT : Transformation :=
  ⟨[], [(1, ⟨⟨.Column, "1"⟩, [valueOp ⟨.Column, "1"⟩], ""⟩)], [], []⟩

/-- A transformation whose column 1 emits the literal `X` and whose
column 2 reads input column 1: the data row shows column recipes read the
input row, not each other's output. -/
def columnReadDemoT : Transformation :=
  ⟨[],
    [(1, ⟨⟨.Column, "1"⟩, [valueOp ⟨.Literal, "X"⟩], ""⟩),
     (2, ⟨⟨.Column, "2"⟩, [valueOp ⟨.Column, "1"⟩], ""⟩)],
    [], []⟩

/-- A one-column transformation with a header recipe emitting the literal
`H`, used to instantiate the header-row theorem. -/
def headerDemoT : Transformation :=
  ⟨[], [(1, ⟨⟨.Column, "1"⟩, [valueOp ⟨.Column, "1"⟩], ""⟩)],
    [(1, ⟨⟨.Header, "1"⟩, [valueOp ⟨.Literal, "H"⟩], ""⟩)], []⟩

/-- The operations of `processRecipe`'s switch that wrap an argument
failure as `NAME(): error evaluating arg: ...`, each with the argument
count its arm requests (`uppercase`/`lowercase` read one argument
directly; all others call `processArgs` with the given count).  `value`
and `join` are deliberately absent: their arms report argument failures
without the wrapper. -/
def wrappedOps : List (String × Nat) :=
  [("uppercase", 1), ("lowercase", 1), ("add", 2), ("subtract", 2), ("multiply", 2),
   ("divide", 2), ("change", 3), ("changei", 3), ("ifempty", 3), ("isempty", 3),
   ("numberformat", 3), ("removedigits", 1), ("onlydigits", 1), ("mod", 2), ("trim", 1),
   ("firstchars", 2), ("lastchars", 2), ("repeat", 2), ("replace", 3), ("formatdate", 2),
   ("formatdatef", 2), ("readdate", 2), ("readdatef", 2), ("smartdate", 1), ("ispast", 3),
   ("isfuture", 3)]

/-!
### Helper lemmas
-/

theorem lookupA_isSome_iff {α β : Type} [DecidableEq α] (l : List (α × β)) (k : α) :
    (lookupA l k).isSome ↔ k ∈ l.map Prod.fst := by
  induction l with
  | nil => simp [lookupA]
  | cons p rest ih =>
      obtain ⟨k0, v0⟩ := p
      by_cases hk : k0 = k
      · subst hk; simp [lookupA]
      · simp [lookupA, hk, ih, Ne.symm hk]

theorem lookupA_eq_none_iff {α β : Type} [DecidableEq α] (l : List (α × β)) (k : α) :
    lookupA l k = none ↔ k ∉ l.map Prod.fst := by
  rw [← lookupA_isSome_iff, Option.isSome_iff_exists]
  cases lookupA l k <;> simp

theorem lookupA_append_of_not_mem {α β : Type} [DecidableEq α]
    (l l2 : List (α × β)) (k : α) (h : k ∉ l.map Prod.fst) :
    lookupA (l ++ l2) k = lookupA l2 k := by
  induction l with
  | nil => simp
  | cons p rest ih =>
      obtain ⟨k0, v0⟩ := p
      simp only [List.map_cons, List.mem_cons] at h
      push_neg at h
      simpa [lookupA, Ne.symm h.1] using ih h.2

theorem updateA_keys {α β : Type} [DecidableEq α] (l : List (α × β)) (k : α) (v : β) :
    (updateA l k v).map Prod.fst =
      if k ∈ l.map Prod.fst then l.map Prod.fst else l.map Prod.fst ++ [k] := by
  induction l with
  | nil => simp [updateA]
  | cons p rest ih =>
      obtain ⟨k0, v0⟩ := p
      by_cases hk : k0 = k
      · subst hk; simp [updateA]
      · simp only [updateA, if_neg hk, List.map_cons, List.mem_cons]
        rw [ih]
        by_cases hm : k ∈ rest.map Prod.fst
        · simp [hm, Ne.symm hk]
        · simp [hm, Ne.symm hk]

theorem mapM_replicate_placeholder (context : LineContext) (placeholder : String) :
    ∀ k : Nat,
      (List.replicate k getPlaceholderArg).mapM (fun a => a.GetValue context placeholder) =
        Except.ok (List.replicate k placeholder) := by
  intro k
  induction k with
  | zero => rfl
  | succ k ih =>
      rw [List.replicate_succ, List.mapM_cons, List.replicate_succ]
      have hga : Argument.GetValue getPlaceholderArg context placeholder =
          Except.ok placeholder := rfl
      rw [hga, ih]
      rfl

theorem mapM_ok_append_replicate (context : LineContext) (placeholder : String) :
    ∀ (l : List Argument) (vs : List String) (k : Nat),
      l.mapM (fun a => a.GetValue context placeholder) = Except.ok vs →
      (l ++ List.replicate k getPlaceholderArg).mapM
          (fun a => a.GetValue context placeholder) =
        Except.ok (vs ++ List.replicate k placeholder) := by
  intro l
  induction l with
  | nil =>
      intro vs k h
      rw [List.mapM_nil] at h
      have hvs : vs = [] := by
        have := congrArg (fun x => match x with | Except.ok v => v | _ => ([] : List String)) h
        simpa using this.symm
      subst hvs
      simpa using mapM_replicate_placeholder context placeholder k
  | cons a l ih =>
      intro vs k h
      rw [List.mapM_cons] at h
      cases hga : a.GetValue context placeholder with
      | error e => rw [hga] at h; exact absurd h (by simp [Bind.bind, Except.bind])
      | ok x =>
          rw [hga] at h
          cases hl : l.mapM (fun a => a.GetValue context placeholder) with
          | error e => rw [hl] at h; exact absurd h (by simp [Bind.bind, Except.bind])
          | ok xs =>
              rw [hl] at h
              have hvs : vs = x :: xs := by
                have := congrArg
                  (fun z => match z with | Except.ok v => v | _ => ([] : List String)) h
                simpa [Bind.bind, Except.bind, pure, Except.pure] using this.symm
              subst hvs
              rw [List.cons_append, List.mapM_cons, hga, ih xs k hl]
              simp [Bind.bind, Except.bind, pure, Except.pure]

theorem processArgs_eq_of_le (numArgs : Nat) (args : List Argument)
    (context : LineContext) (placeholder : String) (h : args.length ≤ numArgs) :
    processArgs numArgs args context placeholder =
      (args ++ List.replicate (numArgs - args.length) getPlaceholderArg).mapM
        (fun a => a.GetValue context placeholder) := by
  simp only [processArgs]
  have hlen :
      (args ++ List.replicate (numArgs - args.length) getPlaceholderArg).length ≤ numArgs := by
    simp
    omega
  rw [List.take_of_length_le hlen]

/-!
### The claims
-/

/-- Claim C3: `Argument.GetValue` returns the column binding for a
`Column` argument and fails with exactly
`column N referenced, but it does not exist in the input` when absent;
returns the variable binding for a `Variable` argument and fails with
exactly `variable 'name' referenced, but it is not defined` when unbound;
returns the stored string verbatim for a `Literal`; and returns the
current placeholder for a `Placeholder` — the last two never fail. -/
theorem c3_argument_getvalue :
    ∀ (ctx : LineContext) (ph s : String),
      (∀ v, lookupA ctx.cols (goAtoi s) = some v →
        Argument.GetValue ⟨.Column, s⟩ ctx ph = .ok v) ∧
      (lookupA ctx.cols (goAtoi s) = none →
        Argument.GetValue ⟨.Column, s⟩ ctx ph =
          .error ("column " ++ toString (goAtoi s) ++
            " referenced, but it does not exist in the input")) ∧
      (∀ v, lookupA ctx.vars s = some v →
        Argument.GetValue ⟨.Variable, s⟩ ctx ph = .ok v) ∧
      (lookupA ctx.vars s = none →
        Argument.GetValue ⟨.Variable, s⟩ ctx ph =
          .error ("variable \x27" ++ s ++ "\x27 referenced, but it is not defined")) ∧
      Argument.GetValue ⟨.Literal, s⟩ ctx ph = .ok s ∧
      Argument.GetValue ⟨.Placeholder, s⟩ ctx ph = .ok ph := by
  intro ctx ph s
  refine ⟨?_, ?_, ?_, ?_, rfl, rfl⟩
  · intro v h; simp [Argument.GetValue, h]
  · intro h; simp [Argument.GetValue, h]
  · intro v h; simp [Argument.GetValue, h]
  · intro h; simp [Argument.GetValue, h]

/-- Witness for C3 at concrete contexts. -/
theorem c3_argument_getvalue_witness :
    Argument.GetValue ⟨.Column, "2"⟩ ⟨[], [(2, "x")], 1⟩ "p" = .ok "x" ∧
    Argument.GetValue ⟨.Column, "5"⟩ ⟨[], [(2, "x")], 1⟩ "p" =
      .error "column 5 referenced, but it does not exist in the input" ∧
    Argument.GetValue ⟨.Variable, "$a"⟩ ⟨[("$a", "y")], [], 1⟩ "p" = .ok "y" ∧
    Argument.GetValue ⟨.Variable, "$b"⟩ ⟨[("$a", "y")], [], 1⟩ "p" =
      .error "variable \x27$b\x27 referenced, but it is not defined" := by
  refine ⟨?_, ?_, ?_, ?_⟩
  · exact (c3_argument_getvalue ⟨[], [(2, "x")], 1⟩ "p" "2").1 "x" (by decide)
  · exact ((c3_argument_getvalue ⟨[], [(2, "x")], 1⟩ "p" "5").2.1 (by decide)).trans (by decide)
  · exact (c3_argument_getvalue ⟨[("$a", "y")], [], 1⟩ "p" "$a").2.2.1 "y" (by decide)
  · exact ((c3_argument_getvalue ⟨[("$a", "y")], [], 1⟩ "p" "$b").2.2.2.1 (by decide)).trans
      (by decide)

/-- Claim C10: with header processing enabled and an input yielding zero
rows, `Execute` on a valid recipe succeeds, writes no output row, and
returns `HeaderLines = 1` and `Lines = -1`. -/
theorem c10_empty_input_with_header :
    ∀ (lib : OpLib) (t : Transformation) (lineLimit : Int),
      ValidateRecipe t = none →
      Execute lib t [] true lineLimit = .ok [] ⟨1, -1⟩ := by
  intro lib t lineLimit h
  simp [Execute, h, execLoop, execFinish]

/-- Witness for C10 at a concrete valid transformation. -/
theorem c10_empty_input_with_header_witness :
    Execute anyOpLib execDemoT [] true (-1) = .ok [] ⟨1, -1⟩ :=
  c10_empty_input_with_header anyOpLib execDemoT (-1) (by decide)

/-- Claim C2 as amended: operations that route their arguments through
`processArgs` are right-padded with `Placeholder` arguments up to their
declared arity, and each missing trailing argument evaluates to the
current placeholder; but `value`, `join`, `uppercase` and `lowercase`
read `Arguments[0]` directly without padding, so with an empty argument
list their arms crash on an out-of-range index. -/
theorem c2_arity_padding :
    (∀ (numArgs : Nat) (args : List Argument) (ctx : LineContext) (ph : String)
        (vs : List String),
      args.length ≤ numArgs →
      args.mapM (fun a => a.GetValue ctx ph) = Except.ok vs →
      processArgs numArgs args ctx ph =
        .ok (vs ++ List.replicate (numArgs - args.length) ph)) ∧
    (∀ (lib : OpLib) (pre : String) (ctx : LineContext) (ph : String) (mode : Mode)
        (nm : String),
      nm ∈ (["value", "join", "uppercase", "lowercase"] : List String) →
      evalOpValue lib pre ctx ph mode ⟨nm, []⟩ = .crashed) := by
  constructor
  · intro numArgs args ctx ph vs hle hmap
    rw [processArgs_eq_of_le numArgs args ctx ph hle]
    exact mapM_ok_append_replicate ctx ph args vs (numArgs - args.length) hmap
  · intro lib pre ctx ph mode nm h
    simp only [List.mem_cons, List.mem_singleton, List.not_mem_nil, or_false] at h
    rcases h with rfl | rfl | rfl | rfl <;> rfl

/-- Witness for C2's amended claim: one call with a padded trailing
argument, and one crashing empty-argument operation. -/
theorem c2_arity_padding_witness :
    processArgs 2 [⟨.Literal, "x"⟩] ⟨[], [], 1⟩ "p" = .ok ["x", "p"] ∧
    evalOpValue anyOpLib "" ⟨[], [], 1⟩ "p" .Replace ⟨"uppercase", []⟩ = .crashed := by
  constructor
  · exact (c2_arity_padding.1 2 [⟨.Literal, "x"⟩] ⟨[], [], 1⟩ "p" ["x"] (by decide)
      (by decide)).trans (by decide)
  · exact c2_arity_padding.2 anyOpLib "" ⟨[], [], 1⟩ "p" .Replace "uppercase" (by decide)

/-- Counterexample to C2 as stated: a bare `uppercase` (empty argument
list) makes `processRecipe` access `Arguments[0]` of an empty list — a Go
runtime panic — rather than padding it; evaluation is not total. -/
theorem c2_arity_padding_counterexample :
    processRecipe anyOpLib "column"
      ⟨⟨.Column, "1"⟩, [⟨"value", [⟨.Column, "1"⟩]⟩, ⟨"uppercase", []⟩], ""⟩
      ⟨[], [(1, "a")], 1⟩ = .crashed := by
  decide

/-- Claim C1: a `join` whose argument is a `Placeholder` arms `Join` mode
and skips the combine step, so the next operation's value is appended to
(not substituted for) the running placeholder; in particular the pipe the
parser produces for the single stage `1 + ?` maps a row whose column 1
holds `s` to `s ++ s`. -/
theorem c1_join_placeholder_defers :
    (∀ (lib : OpLib) (pre : String) (ctx : LineContext) (rest : List Operation)
        (ph pv : String) (mode : Mode),
      runPipe lib pre ctx (⟨"join", [⟨.Placeholder, pv⟩]⟩ :: rest) ph mode =
        runPipe lib pre ctx rest ph .Join) ∧
    (∀ (lib : OpLib) (pre : String) (ctx : LineContext) (rest : List Operation)
        (ph v : String) (op : Operation),
      evalOpValue lib pre ctx ph .Join op = .value v .Join →
      runPipe lib pre ctx (op :: rest) ph .Join =
        runPipe lib pre ctx rest (ph ++ v) .Replace) ∧
    (∀ (lib : OpLib) (vs : List (String × String)) (lineNo : Nat) (s : String),
      processRecipe lib "header" ⟨⟨.Header, "1"⟩, stage1PlusPlaceholder, ""⟩
        ⟨vs, [(1, s)], lineNo⟩ = .ok (s ++ s)) := by
  refine ⟨?_, ?_, ?_⟩
  · intro lib pre ctx rest ph pv mode
    rfl
  · intro lib pre ctx rest ph v op h
    simp [runPipe, h]
  · intro lib vs lineNo s
    rfl

/-- Witness for C1's deferred-append conjunct at a concrete operation. -/
theorem c1_join_placeholder_defers_witness :
    runPipe anyOpLib "" ⟨[], [], 1⟩ [⟨"value", [⟨.Literal, "b"⟩]⟩] "a" .Join = .ok "ab" := by
  exact (c1_join_placeholder_defers.2.1 anyOpLib "" ⟨[], [], 1⟩ []
    "a" "b" ⟨"value", [⟨.Literal, "b"⟩]⟩ (by decide)).trans (by decide)

theorem AddOperationToColumn_vars (t : Transformation) (c : String) (op : Operation) :
    (AddOperationToColumn t c op).vars = t.vars := by
  simp only [AddOperationToColumn, AddOutputToColumn]
  cases h : lookupA t.cols (goAtoi c) <;> simp [h]

theorem AddOperationToHeader_vars (t : Transformation) (hd : String) (op : Operation) :
    (AddOperationToHeader t hd op).vars = t.vars := by
  simp only [AddOperationToHeader, AddOutputToHeader]
  cases h : lookupA t.headers (goAtoi hd) <;> simp [h]

theorem AddOperationToVariable_keys (t : Transformation) (v : String) (op : Operation) :
    (AddOperationToVariable t v op).vars.map Prod.fst = addKey (t.vars.map Prod.fst) v := by
  simp only [AddOperationToVariable, AddOutputToVariable]
  cases h : lookupA t.vars v with
  | some r =>
      have hm : v ∈ t.vars.map Prod.fst := (lookupA_isSome_iff _ _).1 (by simp [h])
      simp only [h]
      rw [updateA_keys]
      simp [addKey, hm]
  | none =>
      have hm : v ∉ t.vars.map Prod.fst := (lookupA_eq_none_iff _ _).1 h
      simp only [h]
      rw [updateA_keys]
      simp [addKey, hm]

theorem applyBuildCall_varOrder (t : Transformation) (c : BuildCall) :
    (applyBuildCall t c).variableOrder = t.variableOrder := by
  cases c with
  | outputToVariable v =>
      simp only [applyBuildCall, AddOutputToVariable]
      cases h : lookupA t.vars v <;> simp [h]
  | operationToVariable v op =>
      simp only [applyBuildCall, AddOperationToVariable, AddOutputToVariable]
      cases h : lookupA t.vars v <;> simp [h]
  | operationByType ty target op =>
      cases ty with
      | Variable =>
          simp only [applyBuildCall, AddOperationByType, AddOperationToVariable,
            AddOutputToVariable]
          cases h : lookupA t.vars target <;> simp [h]
      | Column =>
          simp only [applyBuildCall, AddOperationByType, AddOperationToColumn,
            AddOutputToColumn]
          cases h : lookupA t.cols (goAtoi target) <;> simp [h]
      | Header =>
          simp only [applyBuildCall, AddOperationByType, AddOperationToHeader,
            AddOutputToHeader]
          cases h : lookupA t.headers (goAtoi target) <;> simp [h]
      | Literal => rfl
      | Placeholder => rfl

theorem applyBuildCall_keys (t : Transformation) (c : BuildCall) :
    (applyBuildCall t c).vars.map Prod.fst =
      (match varTarget c with
       | some v => addKey (t.vars.map Prod.fst) v
       | none => t.vars.map Prod.fst) := by
  cases c with
  | outputToVariable v =>
      simp only [applyBuildCall, AddOutputToVariable, varTarget]
      cases h : lookupA t.vars v with
      | some r =>
          have hm : v ∈ t.vars.map Prod.fst := (lookupA_isSome_iff _ _).1 (by simp [h])
          simp [addKey, hm]
      | none =>
          have hm : v ∉ t.vars.map Prod.fst := (lookupA_eq_none_iff _ _).1 h
          simp [addKey, hm]
  | operationToVariable v op =>
      simpa [varTarget] using AddOperationToVariable_keys t v op
  | operationByType ty target op =>
      cases ty with
      | Variable =>
          simpa [varTarget, applyBuildCall, AddOperationByType] using
            AddOperationToVariable_keys t target op
      | Column =>
          simp [varTarget, applyBuildCall, AddOperationByType, AddOperationToColumn_vars]
      | Header =>
          simp [varTarget, applyBuildCall, AddOperationByType, AddOperationToHeader_vars]
      | Literal => simp [varTarget, applyBuildCall, AddOperationByType]
      | Placeholder => simp [varTarget, applyBuildCall, AddOperationByType]

theorem buildFold_varOrder :
    ∀ (calls : List BuildCall) (t : Transformation),
      (calls.foldl applyBuildCall t).variableOrder = t.variableOrder := by
  intro calls
  induction calls with
  | nil => intro t; rfl
  | cons c rest ih => intro t; rw [List.foldl_cons, ih, applyBuildCall_varOrder]

theorem buildFold_keys :
    ∀ (calls : List BuildCall) (t : Transformation),
      (calls.foldl applyBuildCall t).vars.map Prod.fst =
        calls.foldl
          (fun ks c => match varTarget c with | some v => addKey ks v | none => ks)
          (t.vars.map Prod.fst) := by
  intro calls
  induction calls with
  | nil => intro t; rfl
  | cons c rest ih =>
      intro t
      rw [List.foldl_cons, List.foldl_cons, ih, applyBuildCall_keys]

/-- Claim C8 as amended: the building entry points `AddOutputToVariable`,
`AddOperationToVariable` and `AddOperationByType` never touch
`VariableOrder` — after any sequence of such calls on a fresh
transformation it is still empty, while the `Variables` keys are the
declared names in first-declaration order; `VariableOrder` is maintained
by the caller (the parser, whose source is not under `src/`), and
`Execute` evaluates exactly the recipes named in `VariableOrder`. -/
theorem c8_variable_order :
    ∀ (calls : List BuildCall),
      (calls.foldl applyBuildCall NewTransformation).variableOrder = [] ∧
      (calls.foldl applyBuildCall NewTransformation).vars.map Prod.fst =
        declaredKeys calls := by
  intro calls
  constructor
  · rw [buildFold_varOrder]; rfl
  · rw [buildFold_keys]; rfl

/-- Counterexample to C8 as stated: one `AddOutputToVariable` call leaves
`VariableOrder` empty while the `Variables` map has the new key, so
`VariableOrder` does not contain the keys of `Variables`. -/
theorem c8_variable_order_counterexample :
    (applyBuildCall NewTransformation (.outputToVariable "$a")).vars.map Prod.fst =
      ["$a"] ∧
    (applyBuildCall NewTransformation (.outputToVariable "$a")).variableOrder = [] ∧
    (applyBuildCall NewTransformation (.outputToVariable "$a")).variableOrder ≠
      (applyBuildCall NewTransformation (.outputToVariable "$a")).vars.map Prod.fst := by
  refine ⟨by decide, by decide, by decide⟩

/-- Claim C4: `ValidateRecipe` reports an error exactly when the columns
map is empty, some index in `1..|columns|` has no column recipe, or some
header index has no matching column recipe; and `Execute` runs it before
reading any input, so on a validation failure the same error is returned
with no row consumed and no output written, whatever the input. -/
theorem c4_validation (t : Transformation) :
    ((ValidateRecipe t).isSome ↔
      t.cols.length = 0 ∨
      (∃ c : Int, 1 ≤ c ∧ c ≤ (t.cols.length : Int) ∧ lookupA t.cols c = none) ∨
      (∃ p ∈ t.headers, lookupA t.cols p.1 = none)) ∧
    (∀ (e : String) (lib : OpLib) (input : List (List String)) (processHeader : Bool)
        (lineLimit : Int),
      ValidateRecipe t = some e → Execute lib t input processHeader lineLimit = .err [] e) := by
  constructor
  · simp only [ValidateRecipe]
    by_cases h0 : t.cols.length = 0
    · simp [h0]
    · rw [if_neg h0]
      cases hf : (List.range t.cols.length).find?
          (fun (c : Nat) => (lookupA t.cols ((c : Int) + 1)).isNone) with
      | some c =>
          simp only [Option.isSome_some, true_iff]
          right; left
          have hc := List.find?_some hf
          have hcm : c ∈ List.range t.cols.length := List.mem_of_find?_eq_some hf
          rw [List.mem_range] at hcm
          refine ⟨(c : Int) + 1, by omega, by omega, ?_⟩
          simpa [Option.isNone_iff_eq_none] using hc
      | none =>
          cases hh : t.headers.find? (fun p => (lookupA t.cols p.1).isNone) with
          | some p =>
              simp only [Option.isSome_some, true_iff]
              right; right
              have hp := List.find?_some hh
              have hpm := List.mem_of_find?_eq_some hh
              exact ⟨p, hpm, by simpa [Option.isNone_iff_eq_none] using hp⟩
          | none =>
              simp only [Option.isSome_none, Bool.false_eq_true, false_iff]
              push_neg
              refine ⟨h0, ?_, ?_⟩
              · intro c h1 h2
                have hmem : (c - 1).toNat ∈ List.range t.cols.length := by
                  rw [List.mem_range]; omega
                have hnone := List.find?_eq_none.1 hf ((c - 1).toNat) hmem
                have hcast : (((c - 1).toNat : Int)) + 1 = c := by omega
                rw [hcast] at hnone
                simpa [Option.isNone_iff_eq_none] using hnone
              · intro p hp
                have := List.find?_eq_none.1 hh p hp
                simpa [Option.isNone_iff_eq_none] using this
  · intro e lib input processHeader lineLimit h
    simp [Execute, h]

/-- Witness for C4 at the empty transformation. -/
theorem c4_validation_witness :
    Execute anyOpLib ⟨[], [], [], []⟩ [["a"], ["b"]] false (-1) =
      .err [] "no column recipes provided" ∧
    (ValidateRecipe ⟨[], [], [], []⟩).isSome := by
  constructor
  · exact (c4_validation ⟨[], [], [], []⟩).2 "no column recipes provided" anyOpLib
      [["a"], ["b"]] false (-1) (by decide)
  · exact (c4_validation ⟨[], [], [], []⟩).1.mpr (Or.inl (by decide))

theorem execLoop_ok_counts (lib : OpLib) (t : Transformation) (ph : Bool) (limit : Int) :
    ∀ (rows : List (List String)) (lr : Nat) (w w2 : List (List String))
      (res : TransformationResult),
      execLoop lib t ph limit rows lr w = .ok w2 res →
      res.headerLines = (if ph then 1 else 0) ∧
      res.lines =
        ((lr : Int) +
          (if 0 < limit then min (limit.toNat - lr) rows.length else rows.length)) -
          res.headerLines := by
  intro rows
  induction rows with
  | nil =>
      intro lr w w2 res h
      simp only [execLoop, execFinish] at h
      cases h
      refine ⟨rfl, ?_⟩
      simp only [TransformationResult.lines, List.length_nil, Nat.min_zero]
      generalize (if ph then (1 : Int) else 0) = hl
      split <;> omega
  | cons r rest ih =>
      intro lr w w2 res h
      simp only [execLoop] at h
      by_cases hlim : 0 < limit ∧ limit ≤ (lr : Int)
      · rw [if_pos hlim] at h
        simp only [execFinish] at h
        cases h
        refine ⟨rfl, ?_⟩
        have hz : limit.toNat - lr = 0 := by omega
        rw [if_pos hlim.1, hz]
        simp only [TransformationResult.lines, Nat.zero_min, Nat.cast_zero, add_zero]
      · rw [if_neg hlim] at h
        cases hrow : processRow lib t ph (lr + 1) r with
        | ok outRow =>
            rw [hrow] at h
            obtain ⟨h1, h2⟩ := ih (lr + 1) (w ++ [outRow]) w2 res h
            refine ⟨h1, ?_⟩
            rw [h2]
            generalize (if ph then (1 : Int) else 0) = hl at *
            by_cases hl0 : 0 < limit
            · rw [if_pos hl0, if_pos hl0]
              have hmin : min (limit.toNat - lr) (r :: rest).length =
                  1 + min (limit.toNat - (lr + 1)) rest.length := by
                simp only [List.length_cons]
                omega
              rw [hmin]
              push_cast
              omega
            · rw [if_neg hl0, if_neg hl0]
              simp only [List.length_cons]
              push_cast
              omega
        | err e => rw [hrow] at h; simp at h
        | crashed => rw [hrow] at h; simp at h

/-- Claim C7: a run of `Execute` that completes without error reports
`HeaderLines = 1` when header processing is enabled and `0` otherwise, and
`Lines` equal to the number of rows read (`min(lineLimit, |input|)` for a
positive limit, `|input|` otherwise) minus `HeaderLines`. -/
theorem c7_result_counts :
    ∀ (lib : OpLib) (t : Transformation) (input : List (List String)) (ph : Bool)
      (limit : Int) (w : List (List String)) (res : TransformationResult),
      Execute lib t input ph limit = .ok w res →
      res.headerLines = (if ph then 1 else 0) ∧
      res.lines =
        ((if 0 < limit then min limit.toNat input.length else input.length : Nat) : Int) -
          res.headerLines := by
  intro lib t input ph limit w res h
  cases hv : ValidateRecipe t with
  | some e => rw [Execute, hv] at h; simp at h
  | none =>
      rw [Execute, hv] at h
      obtain ⟨h1, h2⟩ := execLoop_ok_counts lib t ph limit input 0 [] w res h
      refine ⟨h1, ?_⟩
      rw [h2]
      simp only [Nat.sub_zero, Nat.cast_zero, zero_add]

theorem applyRecipes_ok (lib : OpLib) (rT : String) (ctx : LineContext) (f : Int → String) :
    ∀ (l : List (Int × Recipe)) (m : Int → Option String),
      (∀ p ∈ l, processRecipe lib rT p.2 ctx = .ok (f p.1)) →
      ∃ g, applyRecipes lib rT ctx l m = .ok g ∧
        ∀ k, g k = if (lookupA l k).isSome then some (f k) else m k := by
  intro l
  induction l with
  | nil =>
      intro m _
      exact ⟨m, rfl, fun k => by simp [lookupA]⟩
  | cons p rest ih =>
      intro m h
      obtain ⟨k0, r0⟩ := p
      have h0 : processRecipe lib rT r0 ctx = .ok (f k0) := h (k0, r0) (by simp)
      obtain ⟨g, hg, hlk⟩ := ih (updateMap m k0 (f k0))
        (fun q hq => h q (List.mem_cons_of_mem _ hq))
      refine ⟨g, ?_, ?_⟩
      · simp only [applyRecipes, h0, hg]
      · intro k
        rw [hlk k]
        by_cases hk : k0 = k
        · subst hk
          by_cases hr : (lookupA rest k0).isSome <;> simp [lookupA, updateMap, hr]
        · simp [lookupA, updateMap, hk, Ne.symm hk]

theorem seedHeaderMap_succ (n : Nat) (row : List String) :
    seedHeaderMap (n + 1) row =
      updateMap (seedHeaderMap n row) ((n : Int) + 1)
        (if n < row.length then row.getD n "" else "column " ++ toString ((n : Int) + 1)) := by
  simp only [seedHeaderMap, List.range_succ, List.foldl_append, List.foldl_cons,
    List.foldl_nil]

theorem seedHeaderMap_lookup (row : List String) :
    ∀ (n i : Nat), i < n →
      seedHeaderMap n row ((i : Int) + 1) =
        some (if i < row.length then row.getD i ""
          else "column " ++ toString ((i : Int) + 1)) := by
  intro n
  induction n with
  | zero => intro i h; exact absurd h (by omega)
  | succ n ih =>
      intro i h
      rw [seedHeaderMap_succ]
      by_cases hi : i = n
      · subst hi
        simp [updateMap]
      · have hlt : i < n := by omega
        have hne : ((i : Int) + 1) ≠ ((n : Int) + 1) := by omega
        simp only [updateMap, if_neg hne]
        exact ih i hlt

theorem lookupA_colsFromRowAux (row : List String) :
    ∀ (b k : Int),
      lookupA (colsFromRowAux b row) k =
        if b < k ∧ k ≤ b + row.length then some (row.getD (k - b - 1).toNat "")
        else none := by
  induction row with
  | nil =>
      intro b k
      simp only [colsFromRowAux, lookupA, List.length_nil, Nat.cast_zero, add_zero]
      rw [if_neg (by omega)]
  | cons v rest ih =>
      intro b k
      simp only [colsFromRowAux, lookupA]
      by_cases hk : b + 1 = k
      · rw [if_pos hk]
        have hc : b < k ∧ k ≤ b + ((v :: rest).length : Int) := by
          simp only [List.length_cons]
          push_cast
          omega
        rw [if_pos hc]
        have hidx : (k - b - 1).toNat = 0 := by omega
        rw [hidx]
        simp
      · rw [if_neg hk, ih (b + 1) k]
        by_cases h1 : b + 1 < k ∧ k ≤ b + 1 + (rest.length : Int)
        · rw [if_pos h1]
          have h2 : b < k ∧ k ≤ b + ((v :: rest).length : Int) := by
            simp only [List.length_cons]
            push_cast
            omega
          rw [if_pos h2]
          have hidx : (k - b - 1).toNat = (k - (b + 1) - 1).toNat + 1 := by omega
          rw [hidx]
          simp
        · rw [if_neg h1]
          have h2 : ¬(b < k ∧ k ≤ b + ((v :: rest).length : Int)) := by
            simp only [List.length_cons]
            push_cast
            omega
          rw [if_neg h2]

theorem processVariables_preserves (lib : OpLib) (t : Transformation) :
    ∀ (names : List String) (ctx ctx2 : LineContext),
      processVariables lib t names ctx = .ok ctx2 →
      ctx2.cols = ctx.cols ∧ ctx2.lineNo = ctx.lineNo := by
  intro names
  induction names with
  | nil =>
      intro ctx ctx2 h
      simp only [processVariables] at h
      cases h
      exact ⟨rfl, rfl⟩
  | cons v rest ih =>
      intro ctx ctx2 h
      simp only [processVariables] at h
      split at h
      · obtain ⟨h1, h2⟩ := ih _ ctx2 h
        simpa using ⟨h1, h2⟩
      · exact absurd h (by simp)
      · exact absurd h (by simp)

theorem execLoop_written_prefix (lib : OpLib) (t : Transformation) (ph : Bool)
    (limit : Int) :
    ∀ (rows : List (List String)) (lr : Nat) (w : List (List String)),
      ∃ tail, writtenOf (execLoop lib t ph limit rows lr w) = w ++ tail := by
  intro rows
  induction rows with
  | nil => intro lr w; exact ⟨[], by simp [execLoop, execFinish, writtenOf]⟩
  | cons r rest ih =>
      intro lr w
      simp only [execLoop]
      by_cases hlim : 0 < limit ∧ limit ≤ (lr : Int)
      · rw [if_pos hlim]
        exact ⟨[], by simp [execFinish, writtenOf]⟩
      · rw [if_neg hlim]
        cases hrow : processRow lib t ph (lr + 1) r with
        | ok outRow =>
            obtain ⟨tail, htail⟩ := ih (lr + 1) (w ++ [outRow])
            exact ⟨[outRow] ++ tail, by rw [htail, List.append_assoc]⟩
        | err e => exact ⟨[], by simp [writtenOf]⟩
        | crashed => exact ⟨[], by simp [writtenOf]⟩

/-- Claim C5: with header processing enabled, the first row's emitted
output is built by seeding positions `1..N` from the input row's fields
(the synthetic `column I` beyond its length) and then overwriting exactly
the positions that have a header recipe with that recipe's evaluated
value; the column recipes contribute nothing to this row (the output is
computed from `t.headers` and the number of columns alone). -/
theorem c5_header_row_construction :
    ∀ (lib : OpLib) (t : Transformation) (row : List String)
      (rest : List (List String)) (lineLimit : Int) (ctx : LineContext)
      (f : Int → String),
      ValidateRecipe t = none →
      processVariables lib t t.variableOrder ⟨[], colsFromRow row, 1⟩ = .ok ctx →
      (∀ p ∈ t.headers, processRecipe lib "header" p.2 ctx = .ok (f p.1)) →
      (writtenOf (Execute lib t (row :: rest) true lineLimit)).head? =
        some ((List.range t.cols.length).map (fun (i : Nat) =>
          if (lookupA t.headers ((i : Int) + 1)).isSome then f ((i : Int) + 1)
          else if i < row.length then row.getD i ""
          else "column " ++ toString ((i : Int) + 1))) := by
  intro lib t row rest lineLimit ctx f hval hvars hh
  rw [Execute, hval]
  simp only [execLoop]
  have hlim : ¬(0 < lineLimit ∧ lineLimit ≤ ((0 : Nat) : Int)) := by omega
  rw [if_neg hlim]
  simp only [processRow, Nat.zero_add]
  rw [hvars]
  simp only [and_true, if_pos trivial]
  obtain ⟨g, hg, hlk⟩ :=
    applyRecipes_ok lib "header" ctx f t.headers (seedHeaderMap t.cols.length row) hh
  rw [hg]
  obtain ⟨tail, htail⟩ := execLoop_written_prefix lib t true lineLimit rest 1
    ([] ++ [outputCsvRow t.cols.length g])
  rw [htail]
  simp only [List.nil_append, List.singleton_append, List.head?_cons, Option.some_inj]
  simp only [outputCsvRow]
  apply List.map_congr_left
  intro i hi
  rw [List.mem_range] at hi
  rw [hlk ((i : Int) + 1)]
  by_cases hhead : (lookupA t.headers ((i : Int) + 1)).isSome
  · simp [hhead]
  · simp only [hhead, if_false]
    rw [seedHeaderMap_lookup row t.cols.length i hi]
    simp [Bool.false_eq_true]

/-- Witness for C5 at a concrete one-column, one-header run. -/
theorem c5_header_row_construction_witness :
    (writtenOf (Execute anyOpLib headerDemoT [["a", "b"]] true (-1))).head? =
      some ["H"] := by
  have h := c5_header_row_construction anyOpLib headerDemoT ["a", "b"] [] (-1)
    ⟨[], colsFromRow ["a", "b"], 1⟩ (fun _ => "H") (by decide) rfl (by decide)
  exact h.trans (by decide)

/-- Claim C9: a row's `LineContext.Columns` holds exactly the input row's
fields (field `i` at key `i+1`, nothing at other keys); variable
processing never modifies the column bindings or the line number; the
column branch fills each output slot with that column's own recipe
evaluated against this shared context; so a column recipe that references
column `n` reads the input row's value, never the computed output of
column `n`'s recipe — as the closing concrete run shows, where column 1
rewrites itself to `X` yet column 2 still reads the input `a`. -/
theorem c9_columns_context :
    (∀ (row : List String) (i : Nat), i < row.length →
      lookupA (colsFromRow row) ((i : Int) + 1) = some (row.getD i "")) ∧
    (∀ (row : List String) (n : Int), n ≤ 0 ∨ (row.length : Int) < n →
      lookupA (colsFromRow row) n = none) ∧
    (∀ (lib : OpLib) (t : Transformation) (names : List String)
        (ctx ctx2 : LineContext),
      processVariables lib t names ctx = .ok ctx2 →
      ctx2.cols = ctx.cols ∧ ctx2.lineNo = ctx.lineNo) ∧
    (∀ (lib : OpLib) (cols : List (Int × Recipe)) (ctx : LineContext) (f : Int → String),
      (∀ p ∈ cols, processRecipe lib "column" p.2 ctx = .ok (f p.1)) →
      ∃ g, applyRecipes lib "column" ctx cols (fun _ => none) = .ok g ∧
        outputCsvRow cols.length g =
          (List.range cols.length).map (fun (i : Nat) =>
            if (lookupA cols ((i : Int) + 1)).isSome then f ((i : Int) + 1) else "")) ∧
    Execute anyOpLib columnReadDemoT [["a", "b"]] false (-1) = .ok [["X", "a"]] ⟨0, 1⟩ := by
  refine ⟨?_, ?_, fun lib t => processVariables_preserves lib t, ?_, by decide⟩
  · intro row i h
    rw [colsFromRow, lookupA_colsFromRowAux row 0 ((i : Int) + 1)]
    rw [if_pos (by omega)]
    have hidx : (((i : Int) + 1) - 0 - 1).toNat = i := by omega
    rw [hidx]
  · intro row n h
    rw [colsFromRow, lookupA_colsFromRowAux row 0 n]
    rw [if_neg (by omega)]
  · intro lib cols ctx f h
    obtain ⟨g, hg, hlk⟩ := applyRecipes_ok lib "column" ctx f cols (fun _ => none) h
    refine ⟨g, hg, ?_⟩
    simp only [outputCsvRow]
    apply List.map_congr_left
    intro i _
    rw [hlk]
    by_cases hc : (lookupA cols ((i : Int) + 1)).isSome <;> simp [hc]

theorem processArgs_one_error (args : List Argument) (ctx : LineContext) (ph e : String)
    (h : processArgs 1 args ctx ph = .error e) :
    ∃ a rest, args = a :: rest ∧ a.GetValue ctx ph = .error e := by
  cases args with
  | nil =>
      have hok : processArgs 1 [] ctx ph = .ok [ph] := rfl
      rw [hok] at h
      exact absurd h (by simp)
  | cons a rest =>
      refine ⟨a, rest, rfl, ?_⟩
      simp only [processArgs, List.length_cons, Nat.succ_sub_succ_eq_sub, Nat.zero_sub,
        List.replicate_zero, List.append_nil, List.take_succ_cons, List.take_zero,
        List.mapM_cons, List.mapM_nil] at h
      cases hga : a.GetValue ctx ph with
      | error e2 =>
          rw [hga] at h
          have he : e2 = e := by simpa [Bind.bind, Except.bind] using h
          rw [he]
      | ok v =>
          rw [hga] at h
          exact absurd h (by simp [Bind.bind, Except.bind, pure, Except.pure])

/-- Claim C6 as amended: for every catalog operation other than `value`
and `join` — those two report argument failures without the `NAME()`
wrapper — an argument-resolution failure makes the evaluator return
exactly `line L / <kind> <target>: NAME(): error evaluating arg:
UNDERLYING`, where `NAME` is the lower-cased operation name and `kind`
the recipe type being run. -/
theorem c6_arg_error_format :
    ∀ (opName : String) (arity : Nat), (opName, arity) ∈ wrappedOps →
    ∀ (lib : OpLib) (recipeType : String) (out : Output) (comment : String)
      (nm : String) (args : List Argument) (ctx : LineContext) (e : String),
      goToLower nm = opName →
      processArgs arity args ctx "" = .error e →
      processRecipe lib recipeType ⟨out, [⟨nm, args⟩], comment⟩ ctx =
        .err ("line " ++ toString ctx.lineNo ++ " / " ++ recipeType ++ " " ++
          out.value ++ ":" ++ " " ++ opName ++ "(): error evaluating arg: " ++ e) := by
  intro opName arity hp
  fin_cases hp <;>
  intro lib recipeType out comment nm args ctx e hlow hproc <;>
  first
  | (obtain ⟨a, rest2, rfl, hga⟩ := processArgs_one_error args ctx "" e hproc
     simp only [processRecipe, runPipe, evalOpValue, opArgsErr, opArgsPure]
     rw [hlow]
     rw [hga]
     rfl)
  | (simp only [processRecipe, runPipe, evalOpValue, opArgsErr, opArgsPure]
     rw [hlow]
     rw [hproc]
     rfl)

/-- Witness for C6's amended claim at the `add` operation. -/
theorem c6_arg_error_format_witness :
    processRecipe anyOpLib "column"
      ⟨⟨.Column, "1"⟩, [⟨"add", [⟨.Variable, "$b"⟩]⟩], ""⟩ ⟨[], [(1, "a")], 1⟩ =
      .err "line 1 / column 1: add(): error evaluating arg: variable \x27$b\x27 referenced, but it is not defined" := by
  have h := c6_arg_error_format "add" 2 (by decide) anyOpLib "column" ⟨.Column, "1"⟩ ""
    "add" [⟨.Variable, "$b"⟩] ⟨[], [(1, "a")], 1⟩
    "variable \x27$b\x27 referenced, but it is not defined" (by decide) (by decide)
  exact h.trans (by decide)

/-- Counterexample to C6 as stated: a failing argument of `value` is
reported without the `value(): error evaluating arg:` wrapper, so the
claimed shape does not hold for every operation in the catalog. -/
theorem c6_arg_error_format_counterexample :
    processRecipe anyOpLib "column"
      ⟨⟨.Column, "1"⟩, [⟨"value", [⟨.Column, "3"⟩]⟩], ""⟩ ⟨[], [(1, "a")], 1⟩ =
      .err "line 1 / column 1: column 3 referenced, but it does not exist in the input" ∧
    "line 1 / column 1: column 3 referenced, but it does not exist in the input" ≠
      "line 1 / column 1: value(): error evaluating arg: column 3 referenced, but it does not exist in the input" := by
  exact ⟨by decide, by decide⟩

/-- Witness for C9 at a concrete row. -/
theorem c9_columns_context_witness :
    lookupA (colsFromRow ["a", "b"]) 2 = some "b" ∧
    lookupA (colsFromRow ["a", "b"]) 3 = none := by
  constructor
  · exact (c9_columns_context.1 ["a", "b"] 1 (by decide)).trans (by decide)
  · exact c9_columns_context.2.1 ["a", "b"] 3 (by decide)

/-- Witness for C7 at a concrete successful run. -/
theorem c7_result_counts_witness :
    (⟨0, 2⟩ : TransformationResult).headerLines = (if false then (1 : Int) else 0) ∧
    (⟨0, 2⟩ : TransformationResult).lines =
      ((if 0 < (-1 : Int) then
          min (-1 : Int).toNat ([["a"], ["b"]] : List (List String)).length
        else ([["a"], ["b"]] : List (List String)).length : Nat) : Int) -
        (⟨0, 2⟩ : TransformationResult).headerLines :=
  c7_result_counts anyOpLib execDemoT [["a"], ["b"]] false (-1) [["a"], ["b"]] ⟨0, 2⟩
    (by decide)

end CsvChef
